import Mathlib

/-!
Verification of the telegram-bot auto-email pipeline (src/app.js).

The development shallow-embeds the pure core of the program:

* `Json`, `jsonParse` — a model of the JavaScript `JSON.parse` applied to the
  candidate substring (numbers restricted to integers, string escapes
  restricted to the single-character escapes; enough for every input the
  claims touch).
* `braceMatch` — the candidate selection `text.match(/\x7b.*\x7d/s)`:
  the greedy match spans from the first opening brace to the last closing
  brace of the content, when such a span exists.
* `getEmailDataFromAI` — the extractor: trim, emptiness check, brace match,
  JSON parse, and the JavaScript truthiness check on the three fields.
  The surrounding try/catch of the source turns every failure into `none`,
  which the embedding expresses by returning an `Option`.
* `sendMail` — the dispatcher, with thrown errors embedded as `Except.error`.
* `mkEmail`, `encodeB64url`, `decodeB64url` — the RFC-2822 style envelope and
  the URL-safe base64 encoding `Buffer.from(email).toString('base64')` with
  the replace chain of the source, plus a standard base64url decoder.
* `onMessage` — the per-message handler of `startTelegramBot`, with the
  completion-call outcome and the dispatch outcome passed in explicitly.
* `main` — the startup branch selecting bot mode versus OAuth consent mode.
-/

namespace TBot

/-- The opening-brace character. -/
def lbrace : Char := '\x7b'

/-- The closing-brace character. -/
def rbrace : Char := '\x7d'

/-- Characters of a string literal. -/
def s2l (s : String) : List Char := s.data

/-- JSON values as produced by `JSON.parse` (numbers restricted to integers). -/
inductive Json where
  | str (s : List Char)
  | num (n : Int)
  | bool (b : Bool)
  | null
  | obj (fields : List (List Char × Json))
  | arr (elems : List Json)

/-- JavaScript truthiness of a JSON value: empty string, zero, `false` and
`null` are falsy, everything else (including objects and arrays) is truthy. -/
def truthy : Json → Bool
  | .str s => !s.isEmpty
  | .num n => !(n == 0)
  | .bool b => b
  | .null => false
  | .obj _ => true
  | .arr _ => true

/-- Property lookup on the field list of a parsed object: as in JavaScript,
when a key occurs several times the last occurrence wins. -/
def lookupLast : List (List Char × Json) → List Char → Option Json
  | [], _ => none
  | (k, v) :: rest, key =>
    match lookupLast rest key with
    | some r => some r
    | none => if k = key then some v else none

/-- Property access `parsed.key`: defined on objects, `none` elsewhere
(mirroring `undefined`). -/
def getField : Json → List Char → Option Json
  | .obj fields, key => lookupLast fields key
  | _, _ => none

/-- JSON whitespace (also the whitespace relevant to `trim` on the inputs the
claims touch). -/
def isWs (c : Char) : Bool := c = ' ' || c = '\n' || c = '\r' || c = '\t'

/-- Drop leading whitespace. -/
def skipWs (cs : List Char) : List Char := cs.dropWhile isWs

/-- The JavaScript `String.prototype.trim`: strip whitespace from both ends. -/
def trimStr (cs : List Char) : List Char :=
  (skipWs (skipWs cs).reverse).reverse

/-- Decoding of a single-character string escape. -/
def escDecode (c : Char) : Option Char :=
  if c = '"' then some '"'
  else if c = '\\' then some '\\'
  else if c = '/' then some '/'
  else if c = 'n' then some '\n'
  else if c = 't' then some '\t'
  else if c = 'r' then some '\r'
  else if c = 'b' then some '\x08'
  else if c = 'f' then some '\x0c'
  else none

/-- Scanner for the body of a JSON string literal: `esc` records whether the
previous character was an unconsumed backslash. Returns the decoded characters
and the input remaining after the closing quote. -/
def parseStringGo : Bool → List Char → Option (List Char × List Char)
  | _, [] => none
  | true, e :: cs =>
    match escDecode e with
    | none => none
    | some d =>
      match parseStringGo false cs with
      | none => none
      | some p => some (d :: p.1, p.2)
  | false, c :: cs =>
    if c = '"' then some ([], cs)
    else if c = '\\' then parseStringGo true cs
    else if c.toNat < 32 then none
    else
      match parseStringGo false cs with
      | none => none
      | some p => some (c :: p.1, p.2)

/-- Parse the body of a JSON string literal, after the opening quote. -/
def parseStringBody (cs : List Char) : Option (List Char × List Char) :=
  parseStringGo false cs

/-- Consume a run of decimal digits, accumulating their value. -/
def digitsToNat (acc : Nat) : List Char → Nat × List Char
  | [] => (acc, [])
  | c :: cs =>
    if c.isDigit then digitsToNat (acc * 10 + (c.toNat - 48)) cs
    else (acc, c :: cs)

mutual

/-- Recursive-descent JSON value parser (fuel-indexed for termination);
returns the parsed value and the remaining input. -/
def parseVal : Nat → List Char → Option (Json × List Char)
  | 0, _ => none
  | fuel + 1, cs =>
    match skipWs cs with
    | [] => none
    | c :: rest =>
      if c = '"' then
        match parseStringBody rest with
        | none => none
        | some p => some (.str p.1, p.2)
      else if c = lbrace then
        match skipWs rest with
        | [] => none
        | d :: rest2 =>
          if d = rbrace then some (.obj [], rest2)
          else
            match parseMembers fuel (d :: rest2) with
            | none => none
            | some p => some (.obj p.1, p.2)
      else if c = '[' then
        match skipWs rest with
        | [] => none
        | d :: rest2 =>
          if d = ']' then some (.arr [], rest2)
          else
            match parseElems fuel (d :: rest2) with
            | none => none
            | some p => some (.arr p.1, p.2)
      else if c = 't' then
        if rest.take 3 = ['r', 'u', 'e'] then some (.bool true, rest.drop 3) else none
      else if c = 'f' then
        if rest.take 4 = ['a', 'l', 's', 'e'] then some (.bool false, rest.drop 4) else none
      else if c = 'n' then
        if rest.take 3 = ['u', 'l', 'l'] then some (.null, rest.drop 3) else none
      else if c = '-' then
        match rest with
        | [] => none
        | d :: _ =>
          if d.isDigit then
            let p := digitsToNat 0 rest
            some (.num (-(p.1 : Int)), p.2)
          else none
      else if c.isDigit then
        let p := digitsToNat 0 (c :: rest)
        some (.num (p.1 : Int), p.2)
      else none

/-- Parse a nonempty comma-separated member list of a JSON object, up to and
including the closing brace. -/
def parseMembers : Nat → List Char → Option (List (List Char × Json) × List Char)
  | 0, _ => none
  | fuel + 1, cs =>
    match skipWs cs with
    | [] => none
    | c :: rest =>
      if c = '"' then
        match parseStringBody rest with
        | none => none
        | some kp =>
          match skipWs kp.2 with
          | [] => none
          | colon :: rest2 =>
            if colon = ':' then
              match parseVal fuel rest2 with
              | none => none
              | some vp =>
                match skipWs vp.2 with
                | [] => none
                | d :: rest3 =>
                  if d = ',' then
                    match parseMembers fuel rest3 with
                    | none => none
                    | some mp => some ((kp.1, vp.1) :: mp.1, mp.2)
                  else if d = rbrace then some ([(kp.1, vp.1)], rest3)
                  else none
            else none
      else none

/-- Parse a nonempty comma-separated element list of a JSON array, up to and
including the closing bracket. -/
def parseElems : Nat → List Char → Option (List Json × List Char)
  | 0, _ => none
  | fuel + 1, cs =>
    match parseVal fuel cs with
    | none => none
    | some vp =>
      match skipWs vp.2 with
      | [] => none
      | d :: rest =>
        if d = ',' then
          match parseElems fuel rest with
          | none => none
          | some ep => some (vp.1 :: ep.1, ep.2)
        else if d = ']' then some ([vp.1], rest)
        else none

end

/-- The model of `JSON.parse`: parse one value and require the remainder to be
whitespace only; any violation is a thrown `SyntaxError`, embedded as `none`.
The fuel `cs.length + 1` is sufficient because each recursive step consumes at
least one character before recursing. -/
def jsonParse (cs : List Char) : Option Json :=
  match parseVal (cs.length + 1) cs with
  | none => none
  | some p => if skipWs p.2 = [] then some p.1 else none

/-- The suffix of the input starting at its first opening brace. -/
def afterFirstBrace : List Char → Option (List Char)
  | [] => none
  | c :: cs => if c = lbrace then some (c :: cs) else afterFirstBrace cs

/-- The suffix of the input starting at its first closing brace. -/
def keepFromClose : List Char → Option (List Char)
  | [] => none
  | c :: cs => if c = rbrace then some (c :: cs) else keepFromClose cs

/-- The candidate selection `text.match(/\x7b.*\x7d/s)`: the greedy regular
expression with dot-matches-newline matches from the first opening brace of
the text to the last closing brace after it, or fails when no such span
exists. -/
def braceMatch (cs : List Char) : Option (List Char) :=
  match afterFirstBrace cs with
  | none => none
  | some s =>
    match keepFromClose s.reverse with
    | none => none
    | some r => some r.reverse

/-- The structured command returned by the extractor
(`{ to: parsed.email, subject: parsed.subject, body: parsed.body }`). The
fields carry whatever JSON values the parsed object held. `toAddr` models the
`to` property of the source (the word `to` is reserved in Lean). -/
structure EmailCommand where
  toAddr : Json
  subject : Json
  body : Json

/-- The extractor `getEmailDataFromAI` of src/app.js. Its input is the outcome
of the completion call: `none` stands for a transport failure, a non-JSON
response body or absent `choices[0].message.content` (each of which throws
inside the try block), `some raw` for a response with content `raw`. The
source's try/catch converts every thrown error into a `null` return, so the
embedding is a total function into `Option EmailCommand`. -/
def getEmailDataFromAI (resp : Option (List Char)) : Option EmailCommand :=
  match resp with
  | none => none
  | some raw =>
    let text := trimStr raw
    if text = [] then none
    else
      match braceMatch text with
      | none => none
      | some m =>
        match jsonParse m with
        | none => none
        | some parsed =>
          match getField parsed (s2l "email"), getField parsed (s2l "subject"),
              getField parsed (s2l "body") with
          | some e, some s, some b =>
            if truthy e && truthy s && truthy b then some ⟨e, s, b⟩ else none
          | _, _, _ => none

/-- Thrown JavaScript errors, identified by their message text. -/
abbrev JsError := List Char

/-- The provider's response data for a successful send (`res.data`), carrying
the provider-assigned message id. -/
structure SendData where
  id : List Char

/-- The dispatcher `sendMail` of src/app.js, with its two external calls passed
in as outcomes: `tokenOutcome` is the result of `oAuth2Client.getAccessToken()`
(`Except.error` when that call rejects, otherwise the possibly-null token), and
`providerOutcome` the result of `gmail.users.messages.send`. A null token
throws `Failed to get access token`. The source's catch block logs the error
and rethrows it (`throw error`), so every failure leaves `sendMail` as
`Except.error`. -/
def sendMail (tokenOutcome : Except JsError (Option (List Char)))
    (providerOutcome : Except JsError SendData) : Except JsError SendData :=
  match tokenOutcome with
  | .error e => .error e
  | .ok none => .error (s2l "Failed to get access token")
  | .ok (some _) =>
    match providerOutcome with
    | .error e => .error e
    | .ok d => .ok d

/-- The carriage-return/line-feed line break used by `emailLines.join('\r\n')`. -/
def crlf : List Char := ['\r', '\n']

/-- The `emailLines` array constructed by `sendMail`. -/
def emailLines (sender toA subject body : List Char) : List (List Char) :=
  [s2l "From: \"Email Bot\" <" ++ (sender ++ s2l ">"),
   s2l "To: " ++ toA,
   s2l "Subject: " ++ subject,
   s2l "Content-Type: text/plain; charset=\"UTF-8\"",
   [],
   body]

/-- The JavaScript `Array.prototype.join` with separator `\r\n`. -/
def joinCRLF : List (List Char) → List Char
  | [] => []
  | [l] => l
  | l :: rest => l ++ (crlf ++ joinCRLF rest)

/-- The full envelope `emailLines.join('\r\n')` constructed by `sendMail`. -/
def mkEmail (sender toA subject body : List Char) : List Char :=
  joinCRLF (emailLines sender toA subject body)

/-- The standard base64 alphabet. -/
def b64alphabet : List Char :=
  s2l "ABCDEFGHIJKLMNOPQRSTUVWXYZabcdefghijklmnopqrstuvwxyz0123456789+/"

/-- The URL-safe base64 alphabet. -/
def b64urlAlphabet : List Char :=
  s2l "ABCDEFGHIJKLMNOPQRSTUVWXYZabcdefghijklmnopqrstuvwxyz0123456789-_"

/-- The character encoding a 6-bit value in standard base64. -/
def b64char (v : Nat) : Char := b64alphabet.getD v 'A'

/-- The character encoding a 6-bit value in URL-safe base64. -/
def u64char (v : Nat) : Char := b64urlAlphabet.getD v 'A'

/-- Standard base64 encoding of a byte sequence, with `=` padding
(`Buffer.prototype.toString('base64')`). -/
def encodeB64 : List Nat → List Char
  | [] => []
  | [a] => [b64char (a / 4), b64char (a % 4 * 16), '=', '=']
  | [a, b] => [b64char (a / 4), b64char (a % 4 * 16 + b / 16), b64char (b % 16 * 4), '=']
  | a :: b :: c :: rest =>
    b64char (a / 4) :: b64char (a % 4 * 16 + b / 16) ::
      b64char (b % 16 * 4 + c / 64) :: b64char (c % 64) :: encodeB64 rest

/-- The global replacement of one character by another
(`.replace(/x/g, 'y')`). -/
def replaceChar (x y : Char) (l : List Char) : List Char :=
  l.map (fun c => if c = x then y else c)

/-- Removal of trailing padding (`.replace(/=+$/, '')`). -/
def stripTrailingEq (l : List Char) : List Char :=
  (l.reverse.dropWhile (fun c => c = '=')).reverse

/-- The encoding chain of `sendMail`: standard base64, then `+` replaced by
`-`, `/` replaced by `_`, and trailing `=` stripped. -/
def encodeB64url (bytes : List Nat) : List Char :=
  stripTrailingEq (replaceChar '/' '_' (replaceChar '+' '-' (encodeB64 bytes)))

/-- The 6-bit value of a URL-safe base64 character. -/
def u64val (c : Char) : Option Nat := b64urlAlphabet.indexOf? c

/-- Standard base64url decoding of an unpadded encoded text: groups of four
characters yield three bytes, a final group of two or three characters yields
one or two bytes, and any other shape or non-alphabet character is rejected. -/
def decodeB64url : List Char → Option (List Nat)
  | [] => some []
  | [_] => none
  | [c1, c2] =>
    match u64val c1, u64val c2 with
    | some v1, some v2 => some [v1 * 4 + v2 / 16]
    | _, _ => none
  | [c1, c2, c3] =>
    match u64val c1, u64val c2, u64val c3 with
    | some v1, some v2, some v3 => some [v1 * 4 + v2 / 16, v2 % 16 * 16 + v3 / 4]
    | _, _, _ => none
  | c1 :: c2 :: c3 :: c4 :: rest =>
    match u64val c1, u64val c2, u64val c3, u64val c4 with
    | some v1, some v2, some v3, some v4 =>
      match decodeB64url rest with
      | none => none
      | some bs => some ((v1 * 4 + v2 / 16) :: (v2 % 16 * 16 + v3 / 4) :: (v3 % 4 * 64 + v4) :: bs)
    | _, _, _, _ => none

mutual

/-- JavaScript string coercion of a JSON value, as performed by the template
literal building the success acknowledgment. -/
def jsToString : Json → List Char
  | .str s => s
  | .num n => s2l (toString n)
  | .bool b => if b then s2l "true" else s2l "false"
  | .null => s2l "null"
  | .obj _ => s2l "[object Object]"
  | .arr xs => jsToStringElems xs

/-- Array stringification: elements joined by commas, with `null` rendered
empty, as in `Array.prototype.join`. -/
def jsToStringElems : List Json → List Char
  | [] => []
  | [.null] => []
  | [x] => jsToString x
  | .null :: rest => ',' :: jsToStringElems rest
  | x :: rest => jsToString x ++ (',' :: jsToStringElems rest)

end

/-- The extraction-failure acknowledgment sent by the bot handler. -/
def extractFailAck : List Char := s2l "❌ Could not extract email details. Try rephrasing."

/-- The dispatch-failure acknowledgment sent by the bot handler. -/
def sendFailAck : List Char := s2l "❌ Failed to send email. Try again later."

/-- The success acknowledgment naming the recipient. -/
def successAck (toA : Json) : List Char :=
  s2l "✅ Email sent to " ++ (jsToString toA ++ s2l " successfully!")

/-- The per-message handler registered by `startTelegramBot`. Inputs: the chat
id, the outcome of the completion call feeding `getEmailDataFromAI`, and the
outcome of the dispatch (`sendMail`). The result collects the chat messages
sent, together with a flag recording whether the dispatcher was invoked at
all; `Except.ok` everywhere expresses that the handler itself never lets an
exception escape (the `return` after the extraction failure and the try/catch
around `sendMail` in the source). -/
def onMessage (chatId : Nat) (resp : Option (List Char))
    (dispatchOutcome : Except JsError SendData) :
    Except JsError (List (Nat × List Char) × Bool) :=
  match getEmailDataFromAI resp with
  | none => .ok ([(chatId, extractFailAck)], false)
  | some cmd =>
    match dispatchOutcome with
    | .ok _ => .ok ([(chatId, successAck cmd.toAddr)], true)
    | .error _ => .ok ([(chatId, sendFailAck)], true)

/-- The startup actions taken by `main`: either the Telegram bot starts
polling with its message handler, or the one-time OAuth consent flow runs
(authorization URL printed, callback server listening). -/
structure StartupActions where
  botStarted : Bool
  consentFlowStarted : Bool

/-- The credential initialization at module load: `setCredentials` is called
exactly when the environment refresh token is truthy, so
`oAuth2Client.credentials.refresh_token` is set exactly for a nonempty
configured token. -/
def credentialsRefreshToken (envRefreshToken : Option (List Char)) : Option (List Char) :=
  match envRefreshToken with
  | none => none
  | some t => if t = [] then none else some t

/-- The startup branch of `main` in src/app.js: with a stored refresh token the
bot starts immediately, otherwise only the consent flow runs. `main` is invoked
once at the bottom of the module, so the selection happens once per process. -/
def main (envRefreshToken : Option (List Char)) : StartupActions :=
  match credentialsRefreshToken envRefreshToken with
  | some _ => ⟨true, false⟩
  | none => ⟨false, true⟩

/-- Presence of a configured refresh token, in the JavaScript truthy sense
(set and nonempty). -/
def tokenPresentB (envRefreshToken : Option (List Char)) : Bool :=
  match envRefreshToken with
  | none => false
  | some t => !(t == [])

/-- Escaping of one character inside a JSON string literal. -/
def escChar (c : Char) : List Char :=
  if c = '"' then ['\\', '"']
  else if c = '\\' then ['\\', '\\']
  else if c = '\n' then ['\\', 'n']
  else if c = '\r' then ['\\', 'r']
  else if c = '\t' then ['\\', 't']
  else [c]

/-- Escaping of a string for a JSON string literal. -/
def escStr : List Char → List Char
  | [] => []
  | c :: cs => escChar c ++ escStr cs

/-- A JSON string literal denoting the given characters. -/
def quoteStr (s : List Char) : List Char := '"' :: (escStr s ++ ['"'])

mutual

/-- The canonical JSON text denoting a value. The claims quantify over
well-formed JSON object texts; this serializer produces them. -/
def serialize : Json → List Char
  | .str s => quoteStr s
  | .num n => s2l (toString n)
  | .bool b => if b then s2l "true" else s2l "false"
  | .null => s2l "null"
  | .obj fields => lbrace :: (serMembers fields ++ [rbrace])
  | .arr xs => '[' :: (serElems xs ++ [']'])

/-- Serialized member list of a JSON object. -/
def serMembers : List (List Char × Json) → List Char
  | [] => []
  | [(k, v)] => quoteStr k ++ (':' :: serialize v)
  | (k, v) :: rest => quoteStr k ++ (':' :: (serialize v ++ (',' :: serMembers rest)))

/-- Serialized element list of a JSON array. -/
def serElems : List Json → List Char
  | [] => []
  | [x] => serialize x
  | x :: rest => serialize x ++ (',' :: serElems rest)

end

/-- A character that may appear verbatim inside a JSON string literal. -/
def charOk (c : Char) : Bool := !(c == '"') && !(c == '\\') && (31 < c.toNat)

/-- A string that serializes without escapes. -/
def strOk (s : List Char) : Bool := s.all charOk

/-- A flat string-valued object whose keys and values serialize without
escapes. -/
def flatOk (fields : List (List Char × List Char)) : Bool :=
  fields.all (fun kv => strOk kv.1 && strOk kv.2)

/-- The member list of a flat string-valued object as JSON fields. -/
def fieldsJson (fields : List (List Char × List Char)) : List (List Char × Json) :=
  fields.map (fun kv => (kv.1, Json.str kv.2))

/-- The JSON object with the given flat string fields. -/
def flatToJson (fields : List (List Char × List Char)) : Json :=
  Json.obj (fieldsJson fields)

/-- Last-occurrence lookup on a flat string field list. -/
def flatLookup : List (List Char × List Char) → List Char → Option (List Char)
  | [], _ => none
  | (k, v) :: rest, key =>
    match flatLookup rest key with
    | some r => some r
    | none => if k = key then some v else none

/-- Claim C2 reads the extractor's last defensive check as rejecting a field
that is missing or the empty string; this predicate follows those words. -/
def missingOrEmpty (p : Json) (k : List Char) : Bool :=
  match getField p k with
  | none => true
  | some (Json.str s) => s.isEmpty
  | some _ => false

/-- The failure conditions exactly as claim C2 lists them: no content, no
brace-delimited substring, unparseable substring, or a required field missing
or empty. -/
def c2ListedFailure (resp : Option (List Char)) : Bool :=
  match resp with
  | none => true
  | some raw =>
    let text := trimStr raw
    if text = [] then true
    else
      match braceMatch text with
      | none => true
      | some m =>
        match jsonParse m with
        | none => true
        | some p =>
          missingOrEmpty p (s2l "email") || missingOrEmpty p (s2l "subject") ||
            missingOrEmpty p (s2l "body")

/-- A required field that is missing or falsy (empty string, `0`, `false` or
`null`): the condition the code actually tests with `!parsed.email` and
friends. -/
def fieldFalsy (p : Json) (k : List Char) : Bool :=
  match getField p k with
  | none => true
  | some v => !truthy v

/-- The failure conditions of the amended claim C2: as listed, but with the
field check being JavaScript falsiness rather than only absence/emptiness. -/
def c2AmendedFailure (resp : Option (List Char)) : Bool :=
  match resp with
  | none => true
  | some raw =>
    let text := trimStr raw
    if text = [] then true
    else
      match braceMatch text with
      | none => true
      | some m =>
        match jsonParse m with
        | none => true
        | some p =>
          fieldFalsy p (s2l "email") || fieldFalsy p (s2l "subject") ||
            fieldFalsy p (s2l "body")

/-- The composite character substitution performed by the two replace calls:
`+` becomes `-`, `/` becomes `_`, everything else is unchanged. -/
def swapUrl (c : Char) : Char :=
  if c = '+' then '-' else if c = '/' then '_' else c

/-- Unpadded URL-safe base64 encoding, three bytes to four characters, with
short final groups and no padding: the normal form the encoding chain of
`sendMail` computes. -/
def encNoPad : List Nat → List Char
  | [] => []
  | [a] => [u64char (a / 4), u64char (a % 4 * 16)]
  | [a, b] => [u64char (a / 4), u64char (a % 4 * 16 + b / 16), u64char (b % 16 * 4)]
  | a :: b :: c :: rest =>
    u64char (a / 4) :: u64char (a % 4 * 16 + b / 16) ::
      u64char (b % 16 * 4 + c / 64) :: u64char (c % 64) :: encNoPad rest

end TBot

namespace TBot

/-! ## Helper lemmas on base64 -/

theorem swapUrl_b64char_fin : ∀ v : Fin 64, swapUrl (b64char v.val) = u64char v.val := by
  decide

theorem u64char_ne_fin : ∀ v : Fin 64,
    u64char v.val ≠ '+' ∧ u64char v.val ≠ '/' ∧ u64char v.val ≠ '=' := by
  decide

theorem u64val_u64char_fin : ∀ v : Fin 64, u64val (u64char v.val) = some v.val := by
  decide

theorem swapUrl_b64char (v : Nat) (h : v < 64) : swapUrl (b64char v) = u64char v :=
  swapUrl_b64char_fin ⟨v, h⟩

theorem u64char_ne_eq (v : Nat) (h : v < 64) : u64char v ≠ '=' :=
  (u64char_ne_fin ⟨v, h⟩).2.2

theorem u64val_u64char (v : Nat) (h : v < 64) : u64val (u64char v) = some v :=
  u64val_u64char_fin ⟨v, h⟩

theorem replaceChar_comp (l : List Char) :
    replaceChar '/' '_' (replaceChar '+' '-' l) = l.map swapUrl := by
  simp only [replaceChar, List.map_map]
  congr 1
  funext c
  by_cases h1 : c = '+'
  · subst h1; rfl
  · by_cases h2 : c = '/'
    · subst h2; rfl
    · simp [Function.comp, swapUrl, h1, h2]

theorem dropWhile_of_all_neg {α : Type} {p : α → Bool} {l : List α}
    (h : ∀ c ∈ l, p c = false) : l.dropWhile p = l := by
  cases l with
  | nil => rfl
  | cons x xs =>
    exact List.dropWhile_cons_of_neg (by simp [h x (List.mem_cons_self x xs)])

theorem stripTrailingEq_append (xs ys : List Char) (h : ∀ c ∈ xs, c ≠ '=') :
    stripTrailingEq (xs ++ ys) = xs ++ stripTrailingEq ys := by
  unfold stripTrailingEq
  rw [List.reverse_append, List.dropWhile_append]
  cases hys : ys.reverse.dropWhile (fun c => c = '=') with
  | nil =>
    simp only [hys, List.isEmpty_nil, if_true, List.reverse_nil, List.append_nil]
    rw [dropWhile_of_all_neg, List.reverse_reverse]
    intro c hc
    exact decide_eq_false (h c (List.mem_reverse.mp hc))
  | cons a l =>
    simp only [hys, List.isEmpty_cons, Bool.false_eq_true, if_false, List.reverse_append,
      List.reverse_reverse]

theorem stripMap_encodeB64 : ∀ bytes : List Nat, (∀ x ∈ bytes, x < 256) →
    stripTrailingEq ((encodeB64 bytes).map swapUrl) = encNoPad bytes
  | [], _ => rfl
  | [a], h => by
    have ha : a < 256 := h a (by simp)
    rw [show (encodeB64 [a]).map swapUrl =
        [swapUrl (b64char (a / 4)), swapUrl (b64char (a % 4 * 16))] ++ ['=', '='] from rfl]
    rw [swapUrl_b64char _ (by omega), swapUrl_b64char _ (by omega)]
    rw [stripTrailingEq_append]
    · rfl
    · intro c hc
      rcases List.mem_pair.mp hc with rfl | rfl
      · exact u64char_ne_eq _ (by omega)
      · exact u64char_ne_eq _ (by omega)
  | [a, b], h => by
    have ha : a < 256 := h a (by simp)
    have hb : b < 256 := h b (by simp)
    rw [show (encodeB64 [a, b]).map swapUrl =
        [swapUrl (b64char (a / 4)), swapUrl (b64char (a % 4 * 16 + b / 16)),
          swapUrl (b64char (b % 16 * 4))] ++ ['='] from rfl]
    rw [swapUrl_b64char _ (by omega), swapUrl_b64char _ (by omega),
      swapUrl_b64char _ (by omega)]
    rw [stripTrailingEq_append]
    · rfl
    · intro c hc
      simp only [List.mem_cons, List.not_mem_nil, or_false] at hc
      rcases hc with rfl | rfl | rfl
      · exact u64char_ne_eq _ (by omega)
      · exact u64char_ne_eq _ (by omega)
      · exact u64char_ne_eq _ (by omega)
  | a :: b :: c :: rest, h => by
    have ha : a < 256 := h a (by simp)
    have hb : b < 256 := h b (by simp)
    have hc : c < 256 := h c (by simp)
    rw [show (encodeB64 (a :: b :: c :: rest)).map swapUrl =
        [swapUrl (b64char (a / 4)), swapUrl (b64char (a % 4 * 16 + b / 16)),
          swapUrl (b64char (b % 16 * 4 + c / 64)), swapUrl (b64char (c % 64))] ++
          (encodeB64 rest).map swapUrl from rfl]
    rw [swapUrl_b64char _ (by omega), swapUrl_b64char _ (by omega),
      swapUrl_b64char _ (by omega), swapUrl_b64char _ (by omega)]
    rw [stripTrailingEq_append]
    · rw [stripMap_encodeB64 rest (fun x hx => h x (by simp [hx]))]
      rfl
    · intro d hd
      simp only [List.mem_cons, List.not_mem_nil, or_false] at hd
      rcases hd with rfl | rfl | rfl | rfl
      · exact u64char_ne_eq _ (by omega)
      · exact u64char_ne_eq _ (by omega)
      · exact u64char_ne_eq _ (by omega)
      · exact u64char_ne_eq _ (by omega)

theorem encodeB64url_eq_encNoPad (bytes : List Nat) (h : ∀ x ∈ bytes, x < 256) :
    encodeB64url bytes = encNoPad bytes := by
  unfold encodeB64url
  rw [replaceChar_comp]
  exact stripMap_encodeB64 bytes h

theorem decodeB64url_encNoPad : ∀ bytes : List Nat, (∀ x ∈ bytes, x < 256) →
    decodeB64url (encNoPad bytes) = some bytes
  | [], _ => rfl
  | [a], h => by
    have ha : a < 256 := h a (by simp)
    show decodeB64url [u64char (a / 4), u64char (a % 4 * 16)] = some [a]
    rw [decodeB64url]
    rw [u64val_u64char _ (by omega), u64val_u64char _ (by omega)]
    show some [a / 4 * 4 + a % 4 * 16 / 16] = some [a]
    have : a / 4 * 4 + a % 4 * 16 / 16 = a := by omega
    rw [this]
  | [a, b], h => by
    have ha : a < 256 := h a (by simp)
    have hb : b < 256 := h b (by simp)
    show decodeB64url [u64char (a / 4), u64char (a % 4 * 16 + b / 16),
        u64char (b % 16 * 4)] = some [a, b]
    rw [decodeB64url]
    rw [u64val_u64char _ (by omega), u64val_u64char _ (by omega),
      u64val_u64char _ (by omega)]
    show some [a / 4 * 4 + (a % 4 * 16 + b / 16) / 16,
      (a % 4 * 16 + b / 16) % 16 * 16 + b % 16 * 4 / 4] = some [a, b]
    have h1 : a / 4 * 4 + (a % 4 * 16 + b / 16) / 16 = a := by omega
    have h2 : (a % 4 * 16 + b / 16) % 16 * 16 + b % 16 * 4 / 4 = b := by omega
    rw [h1, h2]
  | a :: b :: c :: rest, h => by
    have ha : a < 256 := h a (by simp)
    have hb : b < 256 := h b (by simp)
    have hc : c < 256 := h c (by simp)
    show decodeB64url (u64char (a / 4) :: u64char (a % 4 * 16 + b / 16) ::
        u64char (b % 16 * 4 + c / 64) :: u64char (c % 64) :: encNoPad rest) =
      some (a :: b :: c :: rest)
    rw [decodeB64url]
    rw [u64val_u64char _ (by omega), u64val_u64char _ (by omega),
      u64val_u64char _ (by omega), u64val_u64char _ (by omega)]
    rw [decodeB64url_encNoPad rest (fun x hx => h x (by simp [hx]))]
    show some ((a / 4 * 4 + (a % 4 * 16 + b / 16) / 16) ::
        ((a % 4 * 16 + b / 16) % 16 * 16 + (b % 16 * 4 + c / 64) / 4) ::
        ((b % 16 * 4 + c / 64) % 4 * 64 + c % 64) :: rest) =
      some (a :: b :: c :: rest)
    have h1 : a / 4 * 4 + (a % 4 * 16 + b / 16) / 16 = a := by omega
    have h2 : (a % 4 * 16 + b / 16) % 16 * 16 + (b % 16 * 4 + c / 64) / 4 = b := by omega
    have h3 : (b % 16 * 4 + c / 64) % 4 * 64 + c % 64 = c := by omega
    rw [h1, h2, h3]

theorem encNoPad_chars : ∀ bytes : List Nat, (∀ x ∈ bytes, x < 256) →
    ∀ c ∈ encNoPad bytes, c ≠ '+' ∧ c ≠ '/' ∧ c ≠ '='
  | [], _ => by intro c hc; simp [encNoPad] at hc
  | [a], h => by
    have ha : a < 256 := h a (by simp)
    intro c hc
    simp only [encNoPad, List.mem_cons, List.not_mem_nil, or_false] at hc
    rcases hc with rfl | rfl
    · exact u64char_ne_fin ⟨a / 4, by omega⟩
    · exact u64char_ne_fin ⟨a % 4 * 16, by omega⟩
  | [a, b], h => by
    have ha : a < 256 := h a (by simp)
    have hb : b < 256 := h b (by simp)
    intro c hc
    simp only [encNoPad, List.mem_cons, List.not_mem_nil, or_false] at hc
    rcases hc with rfl | rfl | rfl
    · exact u64char_ne_fin ⟨a / 4, by omega⟩
    · exact u64char_ne_fin ⟨a % 4 * 16 + b / 16, by omega⟩
    · exact u64char_ne_fin ⟨b % 16 * 4, by omega⟩
  | a :: b :: cc :: rest, h => by
    have ha : a < 256 := h a (by simp)
    have hb : b < 256 := h b (by simp)
    have hcc : cc < 256 := h cc (by simp)
    intro c hc
    simp only [encNoPad, List.mem_cons] at hc
    rcases hc with rfl | rfl | rfl | rfl | hmem
    · exact u64char_ne_fin ⟨a / 4, by omega⟩
    · exact u64char_ne_fin ⟨a % 4 * 16 + b / 16, by omega⟩
    · exact u64char_ne_fin ⟨b % 16 * 4 + cc / 64, by omega⟩
    · exact u64char_ne_fin ⟨cc % 64, by omega⟩
    · exact encNoPad_chars rest (fun x hx => h x (by simp [hx])) c hmem

/-! ## Helper lemmas on JSON serialization and parsing -/

theorem charOk_props (c : Char) (h : charOk c = true) :
    ¬ (c = '"') ∧ ¬ (c = '\\') ∧ ¬ (c.toNat < 32) := by
  simp only [charOk, Bool.and_eq_true, Bool.not_eq_true'] at h
  obtain ⟨⟨h1, h2⟩, h3⟩ := h
  refine ⟨by simpa using h1, by simpa using h2, ?_⟩
  have := of_decide_eq_true h3
  omega

theorem escChar_ok (c : Char) (h : charOk c = true) : escChar c = [c] := by
  obtain ⟨h1, h2, h3⟩ := charOk_props c h
  have hn : ¬ (c = '\n') := fun hh => h3 (by subst hh; decide)
  have hr : ¬ (c = '\r') := fun hh => h3 (by subst hh; decide)
  have ht : ¬ (c = '\t') := fun hh => h3 (by subst hh; decide)
  simp [escChar, h1, h2, hn, hr, ht]

theorem escStr_ok : ∀ s : List Char, strOk s = true → escStr s = s
  | [], _ => rfl
  | c :: s, h => by
    simp only [strOk, List.all_cons, Bool.and_eq_true] at h
    rw [escStr, escChar_ok c h.1, escStr_ok s h.2]
    rfl

theorem parseStringGo_rt : ∀ (s rest : List Char), strOk s = true →
    parseStringGo false (s ++ ('"' :: rest)) = some (s, rest)
  | [], rest, _ => by
    rw [List.nil_append, parseStringGo]
    simp
  | c :: s, rest, h => by
    have hall : charOk c = true ∧ strOk s = true := by
      simp only [strOk, List.all_cons, Bool.and_eq_true] at h
      exact h
    obtain ⟨h1, h2, h3⟩ := charOk_props c hall.1
    rw [List.cons_append, parseStringGo]
    simp only [h1, h2, h3, if_false]
    rw [parseStringGo_rt s rest hall.2]

theorem skipWs_cons_not (c : Char) (cs : List Char) (h : isWs c = false) :
    skipWs (c :: cs) = c :: cs :=
  List.dropWhile_cons_of_neg (by simp [h])

theorem skipWs_append_cons (l1 : List Char) (c : Char) (l2 : List Char) (h : isWs c = false) :
    skipWs (l1 ++ (c :: l2)) = skipWs l1 ++ (c :: l2) := by
  unfold skipWs
  rw [List.dropWhile_append]
  cases hl : l1.dropWhile isWs with
  | nil =>
    simp only [hl, List.isEmpty_nil, if_true, List.nil_append]
    exact List.dropWhile_cons_of_neg (by simp [h])
  | cons a t => simp [hl]

theorem parseVal_str (f : Nat) (v rest : List Char) (hv : strOk v = true) :
    parseVal (f + 1) ('"' :: (v ++ ('"' :: rest))) = some (.str v, rest) := by
  simp only [parseVal]
  rw [skipWs_cons_not _ _ (by decide)]
  simp only [parseStringBody, parseStringGo_rt v rest hv]
  simp

theorem parseMembers_flat : ∀ (fields : List (List Char × List Char)) (fuel : Nat)
    (rest : List Char), flatOk fields = true → fields ≠ [] →
    fields.length + 1 ≤ fuel →
    parseMembers fuel (serMembers (fieldsJson fields) ++ (rbrace :: rest)) =
      some (fieldsJson fields, rest)
  | [], _, _, _, hne, _ => absurd rfl hne
  | [(k, v)], fuel, rest, hok, _, hfuel => by
    obtain ⟨hk, hv⟩ : strOk k = true ∧ strOk v = true := by
      simp only [flatOk, List.all_cons, List.all_nil, Bool.and_eq_true, and_true] at hok
      exact hok
    have hf : 2 ≤ fuel := by simpa using hfuel
    obtain ⟨f, rfl⟩ : ∃ f, fuel = f + 2 := ⟨fuel - 2, by omega⟩
    have sq : ∀ l, skipWs ('"' :: l) = '"' :: l := fun l => skipWs_cons_not _ _ rfl
    have sc : ∀ l, skipWs (':' :: l) = ':' :: l := fun l => skipWs_cons_not _ _ rfl
    have sb : ∀ l, skipWs (rbrace :: l) = rbrace :: l := fun l => skipWs_cons_not _ _ rfl
    have hbc : ¬ (rbrace = ',') := by decide
    simp only [fieldsJson, List.map_cons, List.map_nil, serMembers, serialize, quoteStr,
      escStr_ok k hk, escStr_ok v hv, List.cons_append, List.append_assoc,
      List.singleton_append, List.nil_append]
    simp only [parseMembers, sq, if_pos rfl, parseStringBody, parseStringGo_rt k _ hk, sc]
    rw [parseVal_str f v _ hv]
    simp only [sb]
    simp [hbc]
  | (k, v) :: p :: tl, fuel, rest, hok, _, hfuel => by
    have hks : strOk k = true ∧ strOk v = true ∧ flatOk (p :: tl) = true := by
      simp only [flatOk, List.all_cons, Bool.and_eq_true] at hok ⊢
      exact ⟨hok.1.1, hok.1.2, hok.2⟩
    obtain ⟨hk, hv, htl⟩ := hks
    have hflen : ((k, v) :: p :: tl).length + 1 = (p :: tl).length + 2 := by simp
    have hf : (p :: tl).length + 2 ≤ fuel := by omega
    obtain ⟨g2, rfl⟩ : ∃ g2, fuel = g2 + 2 := ⟨fuel - 2, by omega⟩
    have hg : (p :: tl).length + 1 ≤ g2 + 1 := by omega
    have sq : ∀ l, skipWs ('"' :: l) = '"' :: l := fun l => skipWs_cons_not _ _ rfl
    have sc : ∀ l, skipWs (':' :: l) = ':' :: l := fun l => skipWs_cons_not _ _ rfl
    have scm : ∀ l, skipWs (',' :: l) = ',' :: l := fun l => skipWs_cons_not _ _ rfl
    have ih := parseMembers_flat (p :: tl) (g2 + 1) rest htl (by simp) hg
    show parseMembers (g2 + 1 + 1)
        ((quoteStr k ++ (':' :: (quoteStr v ++
          (',' :: serMembers (fieldsJson (p :: tl)))))) ++ (rbrace :: rest)) =
      some ((k, Json.str v) :: fieldsJson (p :: tl), rest)
    rw [quoteStr, quoteStr, escStr_ok k hk, escStr_ok v hv]
    simp only [List.cons_append, List.append_assoc, List.singleton_append, List.nil_append]
    rw [parseMembers.eq_2]
    simp only [sq, if_pos rfl, parseStringBody, parseStringGo_rt k _ hk, sc]
    rw [parseVal_str g2 v _ hv]
    simp only [scm]
    rw [ih]
    simp

theorem serMembers_head (k v : List Char) (tl : List (List Char × List Char)) :
    ∃ t, serMembers (fieldsJson ((k, v) :: tl)) = '"' :: t := by
  cases tl with
  | nil => exact ⟨(escStr k ++ ['"']) ++ (':' :: serialize (Json.str v)), rfl⟩
  | cons p2 tl2 =>
    exact ⟨(escStr k ++ ['"']) ++ (':' :: (serialize (Json.str v) ++
      (',' :: serMembers (fieldsJson (p2 :: tl2))))), rfl⟩

theorem parseVal_emptyobj (f : Nat) (rest : List Char) :
    parseVal (f + 1) (lbrace :: (rbrace :: rest)) = some (.obj [], rest) := by
  simp only [parseVal]
  rw [skipWs_cons_not lbrace (rbrace :: rest) (by decide)]
  have hlb1 : ¬ (lbrace = '"') := by decide
  simp only [hlb1, if_false, if_pos rfl]
  rw [skipWs_cons_not rbrace rest (by decide)]
  simp

theorem parseVal_obj (f : Nat) (k v : List Char) (ftl : List (List Char × List Char))
    (rest : List Char) (hok : flatOk ((k, v) :: ftl) = true)
    (hg : ((k, v) :: ftl).length + 1 ≤ f) :
    parseVal (f + 1) (lbrace :: (serMembers (fieldsJson ((k, v) :: ftl)) ++ (rbrace :: rest))) =
      some (.obj (fieldsJson ((k, v) :: ftl)), rest) := by
  obtain ⟨t, ht⟩ := serMembers_head k v ftl
  have hm := parseMembers_flat ((k, v) :: ftl) f rest hok (by simp) hg
  simp only [parseVal]
  rw [skipWs_cons_not lbrace _ (by decide)]
  have hlb1 : ¬ (lbrace = '"') := by decide
  simp only [hlb1, if_false, if_pos rfl]
  rw [ht]
  simp only [List.cons_append]
  rw [skipWs_cons_not '"' _ (by decide)]
  have hqb : ¬ (('"' : Char) = rbrace) := by decide
  simp only [hqb, if_false]
  rw [← List.cons_append, ← ht, hm]
  simp

theorem parseVal_flat (fields : List (List Char × List Char)) (fuel : Nat)
    (rest : List Char) (hok : flatOk fields = true)
    (hfuel : fields.length + 2 ≤ fuel) :
    parseVal fuel (serialize (flatToJson fields) ++ rest) = some (flatToJson fields, rest) := by
  obtain ⟨f, rfl⟩ : ∃ f, fuel = f + 1 := ⟨fuel - 1, by omega⟩
  cases fields with
  | nil =>
    show parseVal (f + 1) ((lbrace :: [rbrace]) ++ rest) = some (.obj [], rest)
    simp only [List.cons_append, List.nil_append]
    exact parseVal_emptyobj f rest
  | cons f1 ftl =>
    obtain ⟨k, v, rfl⟩ : ∃ k v, f1 = (k, v) := ⟨f1.1, f1.2, rfl⟩
    have hg : ((k, v) :: ftl).length + 1 ≤ f := by
      have h2 : ((k, v) :: ftl).length + 2 ≤ f + 1 := hfuel
      omega
    show parseVal (f + 1)
        ((lbrace :: (serMembers (fieldsJson ((k, v) :: ftl)) ++ [rbrace])) ++ rest) =
      some (.obj (fieldsJson ((k, v) :: ftl)), rest)
    simp only [List.cons_append, List.append_assoc, List.singleton_append]
    exact parseVal_obj f k v ftl rest hok hg

theorem serialize_flat_shape (fields : List (List Char × List Char)) :
    serialize (flatToJson fields) = lbrace :: (serMembers (fieldsJson fields) ++ [rbrace]) :=
  rfl

theorem serMembers_len : ∀ fields : List (List Char × List Char),
    fields.length ≤ (serMembers (fieldsJson fields)).length
  | [] => by simp [fieldsJson, serMembers]
  | [(k, v)] => by
    show 1 ≤ (quoteStr k ++ (':' :: serialize (Json.str v))).length
    simp [quoteStr]
  | (k, v) :: p :: tl => by
    have ih := serMembers_len (p :: tl)
    show ((k, v) :: p :: tl).length ≤ (quoteStr k ++ (':' :: (serialize (Json.str v) ++
      (',' :: serMembers (fieldsJson (p :: tl)))))).length
    simp only [List.length_append, List.length_cons, quoteStr] at *
    omega

theorem jsonParse_flat (fields : List (List Char × List Char))
    (hok : flatOk fields = true) :
    jsonParse (serialize (flatToJson fields)) = some (flatToJson fields) := by
  have hlen : fields.length + 2 ≤ (serialize (flatToJson fields)).length + 1 := by
    have hm := serMembers_len fields
    rw [serialize_flat_shape]
    simp only [List.length_cons, List.length_append]
    omega
  have h1 := parseVal_flat fields ((serialize (flatToJson fields)).length + 1) [] hok hlen
  rw [List.append_nil] at h1
  unfold jsonParse
  rw [h1]
  simp [skipWs]

theorem jsonParse_flat_junk (fields : List (List Char × List Char)) (junk : List Char)
    (hok : flatOk fields = true) (hne : skipWs junk ≠ []) :
    jsonParse (serialize (flatToJson fields) ++ junk) = none := by
  have hlen : fields.length + 2 ≤ (serialize (flatToJson fields) ++ junk).length + 1 := by
    have hm := serMembers_len fields
    rw [serialize_flat_shape]
    simp only [List.length_cons, List.length_append]
    omega
  unfold jsonParse
  rw [parseVal_flat fields _ junk hok hlen]
  simp [hne]

theorem mem_skipWs {a : Char} {l : List Char} (h : a ∈ skipWs l) : a ∈ l :=
  (List.dropWhile_sublist isWs).subset h

theorem trimStr_shape (p1 mid p2 : List Char) :
    trimStr (p1 ++ ((lbrace :: (mid ++ [rbrace])) ++ p2)) =
      skipWs p1 ++ ((lbrace :: (mid ++ [rbrace])) ++ (skipWs p2.reverse).reverse) := by
  unfold trimStr
  rw [show p1 ++ ((lbrace :: (mid ++ [rbrace])) ++ p2) =
      p1 ++ (lbrace :: ((mid ++ [rbrace]) ++ p2)) by simp]
  rw [skipWs_append_cons p1 lbrace _ (by decide)]
  rw [show (skipWs p1 ++ (lbrace :: ((mid ++ [rbrace]) ++ p2))).reverse =
      p2.reverse ++ (rbrace :: (mid.reverse ++ (lbrace :: (skipWs p1).reverse))) by simp]
  rw [skipWs_append_cons p2.reverse rbrace _ (by decide)]
  simp

theorem afterFirstBrace_append (l1 x : List Char) (h : lbrace ∉ l1) :
    afterFirstBrace (l1 ++ x) = afterFirstBrace x := by
  induction l1 with
  | nil => rfl
  | cons c cs ih =>
    have hc : ¬ (c = lbrace) := fun hh => h (hh ▸ List.mem_cons_self c cs)
    rw [List.cons_append, afterFirstBrace]
    simp only [hc, if_false]
    exact ih (fun hm => h (List.mem_cons_of_mem c hm))

theorem keepFromClose_append (l1 x : List Char) (h : rbrace ∉ l1) :
    keepFromClose (l1 ++ x) = keepFromClose x := by
  induction l1 with
  | nil => rfl
  | cons c cs ih =>
    have hc : ¬ (c = rbrace) := fun hh => h (hh ▸ List.mem_cons_self c cs)
    rw [List.cons_append, keepFromClose]
    simp only [hc, if_false]
    exact ih (fun hm => h (List.mem_cons_of_mem c hm))

theorem braceMatch_embedded (q1 mid q2 : List Char) (h1 : lbrace ∉ q1)
    (h2 : rbrace ∉ q2) :
    braceMatch (q1 ++ ((lbrace :: (mid ++ [rbrace])) ++ q2)) =
      some (lbrace :: (mid ++ [rbrace])) := by
  unfold braceMatch
  rw [show q1 ++ ((lbrace :: (mid ++ [rbrace])) ++ q2) =
      q1 ++ (lbrace :: ((mid ++ [rbrace]) ++ q2)) by simp]
  rw [afterFirstBrace_append q1 _ h1]
  rw [show afterFirstBrace (lbrace :: ((mid ++ [rbrace]) ++ q2)) =
      some (lbrace :: ((mid ++ [rbrace]) ++ q2)) from by rw [afterFirstBrace]; simp]
  dsimp only
  rw [show (lbrace :: ((mid ++ [rbrace]) ++ q2)).reverse =
      q2.reverse ++ (rbrace :: (mid.reverse ++ [lbrace])) by simp]
  rw [keepFromClose_append q2.reverse _ (fun hm => h2 (List.mem_reverse.mp hm))]
  rw [show keepFromClose (rbrace :: (mid.reverse ++ [lbrace])) =
      some (rbrace :: (mid.reverse ++ [lbrace])) from by rw [keepFromClose]; simp]
  simp

theorem lookupLast_map : ∀ (fields : List (List Char × List Char)) (key : List Char),
    lookupLast (fieldsJson fields) key = (flatLookup fields key).map Json.str
  | [], _ => rfl
  | (k0, v0) :: tl, key => by
    rw [show fieldsJson ((k0, v0) :: tl) = (k0, Json.str v0) :: fieldsJson tl from rfl]
    rw [lookupLast, flatLookup]
    rw [lookupLast_map tl key]
    cases flatLookup tl key with
    | some r => simp
    | none => by_cases hk : k0 = key <;> simp [hk]

theorem getField_flat (fields : List (List Char × List Char)) (key : List Char) :
    getField (flatToJson fields) key = (flatLookup fields key).map Json.str :=
  lookupLast_map fields key

theorem keepFromClose_head (x : List Char) : keepFromClose (rbrace :: x) = some (rbrace :: x) := by
  rw [keepFromClose]
  simp

theorem braceMatch_all (y : List Char) :
    braceMatch (lbrace :: (y ++ [rbrace])) = some (lbrace :: (y ++ [rbrace])) := by
  unfold braceMatch
  rw [show afterFirstBrace (lbrace :: (y ++ [rbrace])) =
      some (lbrace :: (y ++ [rbrace])) from by rw [afterFirstBrace]; simp]
  dsimp only
  rw [show (lbrace :: (y ++ [rbrace])).reverse = rbrace :: (y.reverse ++ [lbrace]) from by simp]
  rw [keepFromClose_head]
  dsimp only
  congr 1
  simp

theorem trimStr_all (y : List Char) :
    trimStr (lbrace :: (y ++ [rbrace])) = lbrace :: (y ++ [rbrace]) := by
  unfold trimStr
  rw [skipWs_cons_not lbrace _ (by decide)]
  rw [show (lbrace :: (y ++ [rbrace])).reverse = rbrace :: (y.reverse ++ [lbrace]) from by simp]
  rw [skipWs_cons_not rbrace _ (by decide)]
  simp

/-! ## Claim theorems: envelope, dispatcher and bridge -/

/-- Claim C4: for every command, the constructed envelope is exactly the From
line (with the configured sender address), the To line with the recipient, the
Subject line, the plain-text content-type header, an empty line and the body,
joined by CRLF line breaks. -/
theorem c4_envelope (sender toA subject body : List Char) :
    mkEmail sender toA subject body =
      s2l "From: \"Email Bot\" <" ++ sender ++ s2l ">\r\nTo: " ++ toA ++
        s2l "\r\nSubject: " ++ subject ++
        s2l "\r\nContent-Type: text/plain; charset=\"UTF-8\"\r\n\r\n" ++ body := by
  simp only [mkEmail, emailLines, joinCRLF, crlf, List.append_assoc]
  rfl

/-- Counterexample to claim C5: on a provider error, `sendMail` does not
return a failure value to its caller; it rethrows, leaving the error to
propagate (the catch block of the source ends in `throw error`). -/
theorem c5_counterexample :
    sendMail (Except.ok (some (s2l "token"))) (Except.error (s2l "provider unavailable")) =
      Except.error (s2l "provider unavailable") := rfl

/-- Amended claim C5: on any transport or provider error during a send,
`sendMail` leaves its caller with a thrown error (it logs and rethrows); the
conversion into a user-facing failure result happens one layer up, in the
Bridge. -/
theorem c5_amended_rethrow (tok : Except JsError (Option (List Char))) (e : JsError) :
    ∃ e2 : JsError, sendMail tok (Except.error e) = Except.error e2 := by
  cases tok with
  | error e0 => exact ⟨e0, rfl⟩
  | ok t =>
    cases t with
    | none => exact ⟨s2l "Failed to get access token", rfl⟩
    | some _ => exact ⟨e, rfl⟩

/-- Claim C6: when extraction succeeds and the dispatch fails — whatever the
token or provider error — the handler swallows the exception and answers with
the fixed generic failure acknowledgment, independent of the error detail. -/
theorem c6_dispatch_failure_ack (cid : Nat) (resp : Option (List Char))
    (cmd : EmailCommand) (tok : Except JsError (Option (List Char)))
    (prov : Except JsError SendData) (e : JsError)
    (hext : getEmailDataFromAI resp = some cmd)
    (hfail : sendMail tok prov = Except.error e) :
    onMessage cid resp (sendMail tok prov) = Except.ok ([(cid, sendFailAck)], true) := by
  simp [onMessage, hext, hfail]

/-- Witness for claim C6 at a concrete message and a concrete provider
error. -/
theorem c6_dispatch_failure_ack_witness :
    onMessage 7 (some (s2l "\x7b\"email\":\"a@b.c\",\"subject\":\"s\",\"body\":\"b\"\x7d"))
        (sendMail (Except.ok (some (s2l "tok"))) (Except.error (s2l "quota exceeded"))) =
      Except.ok ([(7, sendFailAck)], true) :=
  c6_dispatch_failure_ack 7 _
    ⟨Json.str (s2l "a@b.c"), Json.str (s2l "s"), Json.str (s2l "b")⟩
    (Except.ok (some (s2l "tok"))) (Except.error (s2l "quota exceeded"))
    (s2l "quota exceeded") rfl rfl

/-- Claim C7: when extraction yields no command, the handler sends the
extraction-failure acknowledgment and the dispatcher is never invoked (the
invocation flag of the handler stays `false`). -/
theorem c7_no_dispatch_on_extraction_failure (cid : Nat) (resp : Option (List Char))
    (d : Except JsError SendData)
    (hext : getEmailDataFromAI resp = none) :
    onMessage cid resp d = Except.ok ([(cid, extractFailAck)], false) := by
  simp [onMessage, hext]

/-- Witness for claim C7: a model response that is plain prose with no JSON. -/
theorem c7_no_dispatch_on_extraction_failure_witness :
    onMessage 3 (some (s2l "I cannot find any email details here."))
        (Except.ok ⟨s2l "id123"⟩) =
      Except.ok ([(3, extractFailAck)], false) :=
  c7_no_dispatch_on_extraction_failure 3 _ (Except.ok ⟨s2l "id123"⟩) rfl

/-- Claim C9: the startup branch selects exactly one mode from refresh-token
presence: with a configured (nonempty) token the bot pipeline starts and the
consent flow does not; without one only the consent flow runs. `main` runs
once per process, so the consent flow runs at most once per process
lifetime. -/
theorem c9_startup_mode (env : Option (List Char)) :
    (main env).botStarted = tokenPresentB env ∧
      (main env).consentFlowStarted = !tokenPresentB env ∧
      (main env).botStarted ≠ (main env).consentFlowStarted := by
  cases env with
  | none => simp [main, credentialsRefreshToken, tokenPresentB]
  | some t =>
    by_cases h : t = [] <;>
      simp [main, credentialsRefreshToken, tokenPresentB, h]

/-! ## Counterexamples on the extractor -/

/-- Counterexample to claim C1: a well-formed JSON object with nonempty string
values for the three keys, surrounded by prose — but the prose before it
contains an opening brace, so the greedy span starts there, the span does not
parse, and the extractor returns `none` instead of the command. -/
theorem c1_counterexample :
    getEmailDataFromAI (some (s2l "note \x7b " ++
        (serialize (Json.obj [(s2l "email", Json.str (s2l "a@b.c")),
          (s2l "subject", Json.str (s2l "s")),
          (s2l "body", Json.str (s2l "b"))]) ++ s2l " thanks"))) = none := rfl

/-- Counterexample to claim C2: on content whose `email` field is the number
`0`, the extractor returns `none` although none of the failure conditions the
claim lists holds — the content parses and every required field is present and
nonempty. The code rejects any falsy field value, not only missing or empty
ones. -/
theorem c2_counterexample :
    getEmailDataFromAI (some (s2l "\x7b\"email\":0,\"subject\":\"s\",\"body\":\"b\"\x7d")) = none ∧
      c2ListedFailure (some (s2l "\x7b\"email\":0,\"subject\":\"s\",\"body\":\"b\"\x7d")) = false :=
  ⟨rfl, rfl⟩

/-- Counterexample to claim C8: the extractor emits a command whose recipient
is not syntactically a valid email address (it contains no `@` at all); no
syntactic validation of the recipient happens. -/
theorem c8_counterexample :
    getEmailDataFromAI (some (s2l "\x7b\"email\":\"department-mail\",\"subject\":\"s\",\"body\":\"b\"\x7d")) =
        some ⟨Json.str (s2l "department-mail"), Json.str (s2l "s"), Json.str (s2l "b")⟩ ∧
      '@' ∉ s2l "department-mail" :=
  ⟨rfl, by decide⟩

/-- Claim C3: for every byte sequence (in particular the bytes of every
constructed mail envelope), the encoding chain of `sendMail` — standard base64
with `+` replaced by `-`, `/` replaced by `_` and trailing `=` stripped —
contains no `+`, `/` or `=` character, and base64url decoding recovers exactly
the original bytes. -/
theorem c3_base64url_roundtrip (bytes : List Nat) (h : ∀ x ∈ bytes, x < 256) :
    (∀ c ∈ encodeB64url bytes, c ≠ '+' ∧ c ≠ '/' ∧ c ≠ '=') ∧
      decodeB64url (encodeB64url bytes) = some bytes := by
  rw [encodeB64url_eq_encNoPad bytes h]
  exact ⟨encNoPad_chars bytes h, decodeB64url_encNoPad bytes h⟩

/-- Witness for claim C3 at the bytes of a concrete constructed envelope. -/
theorem c3_base64url_roundtrip_witness :
    (∀ c ∈ encodeB64url ((mkEmail (s2l "bot@g.co") (s2l "a@b.c") (s2l "Hi") (s2l "Yo")).map
        Char.toNat), c ≠ '+' ∧ c ≠ '/' ∧ c ≠ '=') ∧
      decodeB64url (encodeB64url ((mkEmail (s2l "bot@g.co") (s2l "a@b.c") (s2l "Hi")
          (s2l "Yo")).map Char.toNat)) =
        some ((mkEmail (s2l "bot@g.co") (s2l "a@b.c") (s2l "Hi") (s2l "Yo")).map Char.toNat) :=
  c3_base64url_roundtrip _ (by decide)

/-- Counterexample to claim C10: content containing a well-formed JSON object
(the empty object of the `extra` field) followed by a further closing brace,
on which the spanned substring parses fine and the extractor succeeds: the
claimed consequence (`extract` returns `none` on any such content) fails. -/
theorem c10_counterexample :
    getEmailDataFromAI
        (some (s2l "\x7b\"email\":\"a@b.c\",\"subject\":\"s\",\"body\":\"b\",\"extra\":\x7b\x7d\x7d")) =
      some ⟨Json.str (s2l "a@b.c"), Json.str (s2l "s"), Json.str (s2l "b")⟩ := rfl

/-! ## Amended extractor claims -/

/-- Amended claim C1: for every model response whose content is a well-formed
JSON object (flat, string-valued, escape-free) whose `email`, `subject` and
`body` fields are nonempty strings, surrounded by prose that contains no
opening brace before the object and no closing brace after it, the extractor
returns exactly those three values. -/
theorem c1_extract_wrapped (fields : List (List Char × List Char))
    (p1 p2 e s b : List Char) (hok : flatOk fields = true)
    (hp1 : lbrace ∉ p1) (hp2 : rbrace ∉ p2)
    (he : flatLookup fields (s2l "email") = some e) (hes : e ≠ [])
    (hs : flatLookup fields (s2l "subject") = some s) (hss : s ≠ [])
    (hb : flatLookup fields (s2l "body") = some b) (hbs : b ≠ []) :
    getEmailDataFromAI (some (p1 ++ (serialize (flatToJson fields) ++ p2))) =
      some ⟨Json.str e, Json.str s, Json.str b⟩ := by
  simp only [getEmailDataFromAI]
  rw [show p1 ++ (serialize (flatToJson fields) ++ p2) =
      p1 ++ ((lbrace :: (serMembers (fieldsJson fields) ++ [rbrace])) ++ p2) from rfl]
  rw [trimStr_shape p1 (serMembers (fieldsJson fields)) p2]
  have hq1 : lbrace ∉ skipWs p1 := fun hm => hp1 (mem_skipWs hm)
  have hq2 : rbrace ∉ (skipWs p2.reverse).reverse :=
    fun hm => hp2 (List.mem_reverse.mp (mem_skipWs (List.mem_reverse.mp hm)))
  rw [if_neg (by simp)]
  rw [braceMatch_embedded _ _ _ hq1 hq2]
  dsimp only
  rw [show lbrace :: (serMembers (fieldsJson fields) ++ [rbrace]) =
      serialize (flatToJson fields) from rfl]
  rw [jsonParse_flat fields hok]
  dsimp only
  rw [getField_flat, getField_flat, getField_flat, he, hs, hb]
  have te : truthy (Json.str e) = true := by
    cases e with
    | nil => exact absurd rfl hes
    | cons a t => rfl
  have ts : truthy (Json.str s) = true := by
    cases s with
    | nil => exact absurd rfl hss
    | cons a t => rfl
  have tb : truthy (Json.str b) = true := by
    cases b with
    | nil => exact absurd rfl hbs
    | cons a t => rfl
  simp [te, ts, tb]

/-- Witness for the amended claim C1: a concrete object wrapped in prose. -/
theorem c1_extract_wrapped_witness :
    getEmailDataFromAI (some (s2l "Sure! " ++
        (serialize (flatToJson [(s2l "email", s2l "a@b.c"), (s2l "subject", s2l "Hi"),
          (s2l "body", s2l "See you at 3pm.")]) ++ s2l " Done."))) =
      some ⟨Json.str (s2l "a@b.c"), Json.str (s2l "Hi"), Json.str (s2l "See you at 3pm.")⟩ :=
  c1_extract_wrapped [(s2l "email", s2l "a@b.c"), (s2l "subject", s2l "Hi"),
      (s2l "body", s2l "See you at 3pm.")]
    (s2l "Sure! ") (s2l " Done.") (s2l "a@b.c") (s2l "Hi") (s2l "See you at 3pm.")
    (by decide) (by decide) (by decide) (by decide) (by decide) (by decide) (by decide)
    (by decide) (by decide)

/-- Amended claim C10: the candidate selection is the greedy span from the
first opening brace to the last closing brace. Consequently, on content made
of one well-formed flat JSON object followed — after any separator text — by a
second object fragment, the span covers both fragments, the spanned substring
is not valid JSON, and the extractor returns `none`. -/
theorem c10_greedy_two_fragments (fields1 fields2 : List (List Char × List Char))
    (sep : List Char) (hok1 : flatOk fields1 = true) :
    braceMatch (trimStr (serialize (flatToJson fields1) ++
        (sep ++ serialize (flatToJson fields2)))) =
      some (serialize (flatToJson fields1) ++ (sep ++ serialize (flatToJson fields2))) ∧
    getEmailDataFromAI (some (serialize (flatToJson fields1) ++
        (sep ++ serialize (flatToJson fields2)))) = none := by
  have hform : serialize (flatToJson fields1) ++ (sep ++ serialize (flatToJson fields2)) =
      lbrace :: ((serMembers (fieldsJson fields1) ++
        (rbrace :: (sep ++ (lbrace :: serMembers (fieldsJson fields2))))) ++ [rbrace]) := by
    rw [serialize_flat_shape, serialize_flat_shape]
    simp
  have hjunk : skipWs (sep ++ serialize (flatToJson fields2)) ≠ [] := by
    rw [serialize_flat_shape]
    rw [skipWs_append_cons sep lbrace _ (by decide)]
    simp
  constructor
  · rw [hform, trimStr_all, braceMatch_all]
  · simp only [getEmailDataFromAI]
    rw [hform, trimStr_all]
    rw [if_neg (by simp)]
    rw [braceMatch_all]
    dsimp only
    rw [← hform]
    rw [jsonParse_flat_junk fields1 (sep ++ serialize (flatToJson fields2)) hok1 hjunk]

/-- Witness for the amended claim C10: two concrete fragments separated by
prose. -/
theorem c10_greedy_two_fragments_witness :
    braceMatch (trimStr (serialize (flatToJson [(s2l "email", s2l "a@b.c")]) ++
        (s2l " and " ++ serialize (flatToJson [])))) =
      some (serialize (flatToJson [(s2l "email", s2l "a@b.c")]) ++
        (s2l " and " ++ serialize (flatToJson []))) ∧
    getEmailDataFromAI (some (serialize (flatToJson [(s2l "email", s2l "a@b.c")]) ++
        (s2l " and " ++ serialize (flatToJson [])))) = none :=
  c10_greedy_two_fragments [(s2l "email", s2l "a@b.c")] [] (s2l " and ") (by decide)

/-- Amended claim C2: the extractor returns `none` exactly when the completion
call fails or yields no content, the trimmed content is empty, no
brace-delimited substring exists, the spanned substring does not parse as
JSON, or one of the `email`/`subject`/`body` fields is missing or falsy
(empty string, `0`, `false` or `null`); the try/catch of the source means no
exception reaches the caller in any of these cases, which the embedding
expresses by `getEmailDataFromAI` being a total function into `Option`. -/
theorem c2_extract_none_iff (resp : Option (List Char)) :
    getEmailDataFromAI resp = none ↔ c2AmendedFailure resp = true := by
  cases resp with
  | none => simp [getEmailDataFromAI, c2AmendedFailure]
  | some raw =>
    simp only [getEmailDataFromAI, c2AmendedFailure]
    by_cases ht : trimStr raw = []
    · simp [ht]
    · simp only [ht, if_false]
      cases hbm : braceMatch (trimStr raw) with
      | none => simp
      | some m =>
        cases hj : jsonParse m with
        | none => simp [hj]
        | some p =>
          cases he : getField p (s2l "email") with
          | none => simp [fieldFalsy, hj, he]
          | some ve =>
            cases hs : getField p (s2l "subject") with
            | none => simp [fieldFalsy, hj, he, hs]
            | some vs =>
              cases hb : getField p (s2l "body") with
              | none => simp [fieldFalsy, hj, he, hs, hb]
              | some vb =>
                simp only [fieldFalsy, hj, he, hs, hb]
                cases hte : truthy ve <;> cases hts : truthy vs <;>
                  cases htb : truthy vb <;> simp [hte, hts, htb]

/-- Amended claim C8: every command the extractor produces has truthy
(non-falsy) `email`, `subject` and `body` values, and nothing more: no
syntactic email validation of the recipient is performed. -/
theorem c8_truthy_fields (resp : Option (List Char)) (cmd : EmailCommand)
    (h : getEmailDataFromAI resp = some cmd) :
    truthy cmd.toAddr = true ∧ truthy cmd.subject = true ∧ truthy cmd.body = true := by
  cases resp with
  | none => simp [getEmailDataFromAI] at h
  | some raw =>
    simp only [getEmailDataFromAI] at h
    by_cases ht : trimStr raw = []
    · simp [ht] at h
    · simp only [ht, if_false] at h
      cases hbm : braceMatch (trimStr raw) with
      | none => rw [hbm] at h; simp at h
      | some m =>
        rw [hbm] at h
        dsimp only at h
        cases hj : jsonParse m with
        | none => rw [hj] at h; simp at h
        | some p =>
          rw [hj] at h
          dsimp only at h
          cases he : getField p (s2l "email") with
          | none => rw [he] at h; simp at h
          | some ve =>
            cases hs : getField p (s2l "subject") with
            | none => rw [he, hs] at h; simp at h
            | some vs =>
              cases hb : getField p (s2l "body") with
              | none => rw [he, hs, hb] at h; simp at h
              | some vb =>
                rw [he, hs, hb] at h
                dsimp only at h
                by_cases hc : (truthy ve && truthy vs && truthy vb) = true
                · rw [if_pos hc] at h
                  injection h with h2
                  subst h2
                  simp only [Bool.and_eq_true] at hc
                  exact ⟨hc.1.1, hc.1.2, hc.2⟩
                · rw [if_neg hc] at h
                  simp at h

/-- Witness for the amended claim C8: a concrete extraction whose resulting
command has three truthy fields. -/
theorem c8_truthy_fields_witness :
    truthy (EmailCommand.toAddr ⟨Json.str (s2l "a@b.c"), Json.str (s2l "s"),
        Json.str (s2l "b")⟩) = true ∧
      truthy (EmailCommand.subject ⟨Json.str (s2l "a@b.c"), Json.str (s2l "s"),
        Json.str (s2l "b")⟩) = true ∧
      truthy (EmailCommand.body ⟨Json.str (s2l "a@b.c"), Json.str (s2l "s"),
        Json.str (s2l "b")⟩) = true :=
  c8_truthy_fields (some (s2l "\x7b\"email\":\"a@b.c\",\"subject\":\"s\",\"body\":\"b\"\x7d"))
    ⟨Json.str (s2l "a@b.c"), Json.str (s2l "s"), Json.str (s2l "b")⟩ rfl

end TBot
